import Mathlib

/-!
Verification of the collaborative-canvas server core: the Session Registry
(`RoomManager`, src/unnamed/part_000 = server/rooms.js), the Stroke Log
(`DrawingStateManager`, src/server/drawing-state.js) and the Coordinator
(the socket event handlers of src/server/server.js), shallowly embedded.

Modelling conventions:
- JS `Map` objects become functions `String → Option _`; `Map.set`/`Map.delete`
  become pointwise function updates.
- A JS `Set` of socket ids becomes an insertion-ordered duplicate-free
  `List String` (`listSetAdd` mirrors `Set.add`, `List.erase` mirrors
  `Set.delete`).
- `Date.now()` is threaded in as an explicit `now : Nat` argument.
- JS string truthiness (`!data.roomId`, `!username`) is modelled as equality
  with the empty string `""` (the missing/undefined case is identified with
  the empty string, the only falsy string value).
- Numbers that the server never computes with (coordinates, brush size) are
  modelled as `Int`; timestamps as `Nat`.
-/

namespace CollabCanvas

/-- One point of a stroke path (the client sends `{x, y}`). -/
abbrev Point := Int × Int

/-- A stroke record as stored by the server.  The client's `drawing-stroke`
payload carries `id, path, tool, color, size, timestamp`; the spread
`{...strokeData, userId, username, userColor}` in server.js means the stored
record always has the three author fields as well, so the payload type and the
stored type coincide (spoofed author fields in the payload are simply
overwritten by the spread). -/
structure Stroke where
  id : String
  path : List Point
  tool : String
  color : String
  size : Int
  timestamp : Nat
  userId : String
  username : String
  userColor : String
deriving DecidableEq, Repr

/-- State of `DrawingStateManager` (drawing-state.js): the `roomStrokes` map
and the `maxStrokesPerRoom` configuration field (10000 in the constructor). -/
structure DrawingStateManager where
  roomStrokes : String → Option (List Stroke)
  maxStrokesPerRoom : Nat

/-- A freshly constructed `DrawingStateManager`. -/
def initDSM : DrawingStateManager :=
  { roomStrokes := fun _ => none, maxStrokesPerRoom := 10000 }

namespace DrawingStateManager

/-- The push-and-evict step of `addStroke` on one room's list: `strokes.push`
followed by `strokes.shift()` when the length exceeds the cap. -/
def pushCap (cap : Nat) (l : List Stroke) (stroke : Stroke) : List Stroke :=
  let pushed := l ++ [stroke]
  if pushed.length > cap then pushed.drop 1 else pushed

/-- Model of `addStroke(roomId, stroke)`: `initRoomStrokes` ensures the entry
exists (so a missing entry behaves as `[]`), then the push-and-evict step
runs on the room's list.  Returns `true` unconditionally, as the source
does. -/
def addStroke (m : DrawingStateManager) (roomId : String) (stroke : Stroke) :
    Bool × DrawingStateManager :=
  let limited := pushCap m.maxStrokesPerRoom ((m.roomStrokes roomId).getD []) stroke
  (true, { m with roomStrokes := fun r => if r = roomId then some limited else m.roomStrokes r })

/-- Helper mirroring `strokes.findIndex(s => s.id === strokeId)` followed by
`strokes.splice(index, 1)`: returns `none` when `findIndex` yields `-1`, and
otherwise the list with the first entry of the given id removed. -/
def spliceFirstById (strokeId : String) : List Stroke → Option (List Stroke)
  | [] => none
  | s :: rest =>
    if s.id = strokeId then some rest
    else (spliceFirstById strokeId rest).map (s :: ·)

/-- Model of `removeStroke(roomId, strokeId)`: `false` if the room has no log
or no entry matches; otherwise removes the first matching entry and returns
`true`. -/
def removeStroke (m : DrawingStateManager) (roomId strokeId : String) :
    Bool × DrawingStateManager :=
  match m.roomStrokes roomId with
  | none => (false, m)
  | some l =>
    match spliceFirstById strokeId l with
    | none => (false, m)
    | some l' =>
      (true, { m with roomStrokes := fun r => if r = roomId then some l' else m.roomStrokes r })

/-- Model of `getRoomStrokes(roomId)`: `this.roomStrokes.get(roomId) || []`. -/
def getRoomStrokes (m : DrawingStateManager) (roomId : String) : List Stroke :=
  (m.roomStrokes roomId).getD []

/-- Model of `clearUserStrokes(roomId, userId)`: no-op when the room has no
log, otherwise replaces the log with the entries whose `userId` differs. -/
def clearUserStrokes (m : DrawingStateManager) (roomId userId : String) :
    DrawingStateManager :=
  match m.roomStrokes roomId with
  | none => m
  | some l =>
    { m with roomStrokes := fun r =>
        if r = roomId then some (l.filter fun s => s.userId != userId)
        else m.roomStrokes r }

/-- Model of `clearRoomStrokes(roomId)`. -/
def clearRoomStrokes (m : DrawingStateManager) (roomId : String) : DrawingStateManager :=
  { m with roomStrokes := fun r => if r = roomId then some [] else m.roomStrokes r }

/-- Model of `cleanupRoom(roomId)`. -/
def cleanupRoom (m : DrawingStateManager) (roomId : String) : DrawingStateManager :=
  { m with roomStrokes := fun r => if r = roomId then none else m.roomStrokes r }

/-- The record returned by `exportRoomData`. -/
structure RoomExport where
  roomId : String
  strokes : List Stroke
  exported : Nat
deriving DecidableEq, Repr

/-- Model of `exportRoomData(roomId)`: `null` when the room has no log. -/
def exportRoomData (m : DrawingStateManager) (roomId : String) (now : Nat) :
    Option RoomExport :=
  match m.roomStrokes roomId with
  | none => none
  | some strokes => some { roomId := roomId, strokes := strokes, exported := now }

/-- Model of `importRoomData(data)`: `if (!data || !data.roomId) return false`.
A falsy `data.roomId` is exactly the empty string in the string model. -/
def importRoomData (m : DrawingStateManager) (data : Option RoomExport) :
    Bool × DrawingStateManager :=
  match data with
  | none => (false, m)
  | some d =>
    if d.roomId = "" then (false, m)
    else (true, { m with roomStrokes := fun r =>
            if r = d.roomId then some d.strokes else m.roomStrokes r })

end DrawingStateManager

/-- A connected user as built by `RoomManager.addUser` (rooms.js):
`generateUserId(socketId)` returns `socketId` unchanged, so `userId` and
`socketId` always coincide. -/
structure User where
  userId : String
  socketId : String
  username : String
  roomId : String
  color : String
  joinedAt : Nat
  cursor : Point
deriving DecidableEq, Repr

/-- A room record of `RoomManager`: its member `Set` of socket ids is an
insertion-ordered duplicate-free list. -/
structure Room where
  roomId : String
  users : List String
  createdAt : Nat
  lastActivity : Nat
deriving DecidableEq, Repr

/-- Model of JS `Set.add`: appends only when the element is absent. -/
def listSetAdd (l : List String) (x : String) : List String :=
  if x ∈ l then l else l ++ [x]

/-- State of `RoomManager` (rooms.js): the users map, the rooms map, the
fixed color palette and the monotonically increasing color index. -/
structure RoomManager where
  users : String → Option User
  rooms : String → Option Room
  colorPalette : List String
  colorIndex : Nat

/-- The 20-entry color palette from the `RoomManager` constructor. -/
def defaultPalette : List String :=
  ["#FF6B6B", "#4ECDC4", "#45B7D1", "#96CEB4", "#FFEAA7",
   "#DDA0DD", "#98D8C8", "#FFD700", "#FF69B4", "#00CED1",
   "#FF8C00", "#9370DB", "#3CB371", "#FF6347", "#4682B4",
   "#D2691E", "#FF1493", "#00BFFF", "#FF4500", "#32CD32"]

/-- A freshly constructed `RoomManager`. -/
def initRM : RoomManager :=
  { users := fun _ => none, rooms := fun _ => none,
    colorPalette := defaultPalette, colorIndex := 0 }

namespace RoomManager

/-- Model of `getNextColor()`: reads `colorPalette[colorIndex % length]` and
increments the index.  Returns the color together with the updated state. -/
def getNextColor (st : RoomManager) : String × RoomManager :=
  (st.colorPalette.getD (st.colorIndex % st.colorPalette.length) "",
   { st with colorIndex := st.colorIndex + 1 })

/-- Model of `addUser(socketId, username, roomId)`: creates the user record
(with the next palette color and `userId = generateUserId(socketId) =
socketId`), overwrites the users-map entry, ensures the room exists, and adds
the socket id to the room's member set, updating `lastActivity`.  Returns the
created user together with the updated state. -/
def addUser (st : RoomManager) (socketId username roomId : String) (now : Nat) :
    User × RoomManager :=
  let color := st.getNextColor.1
  let st₀ := st.getNextColor.2
  let user : User :=
    { userId := socketId, socketId := socketId, username := username,
      roomId := roomId, color := color, joinedAt := now, cursor := (0, 0) }
  let baseRoom : Room :=
    match st₀.rooms roomId with
    | some room => room
    | none => { roomId := roomId, users := [], createdAt := now, lastActivity := now }
  let room' : Room :=
    { baseRoom with users := listSetAdd baseRoom.users socketId, lastActivity := now }
  (user,
   { st₀ with
     users := fun s => if s = socketId then some user else st₀.users s,
     rooms := fun r => if r = roomId then some room' else st₀.rooms r })

/-- Model of `removeUser(socketId)`: `null` when unknown; otherwise removes
the socket id from its room's member set (deleting the room when the set
becomes empty) and deletes the users-map entry, returning the removed user. -/
def removeUser (st : RoomManager) (socketId : String) (now : Nat) :
    Option User × RoomManager :=
  match st.users socketId with
  | none => (none, st)
  | some user =>
    let newRooms : String → Option Room :=
      match st.rooms user.roomId with
      | none => st.rooms
      | some room =>
        let remaining := room.users.erase socketId
        if remaining.isEmpty then
          fun r => if r = user.roomId then none else st.rooms r
        else
          fun r => if r = user.roomId then
                     some { room with users := remaining, lastActivity := now }
                   else st.rooms r
    (some user,
     { st with rooms := newRooms,
               users := fun s => if s = socketId then none else st.users s })

/-- Model of `getUser(socketId)`. -/
def getUser (st : RoomManager) (socketId : String) : Option User :=
  st.users socketId

/-- Model of `updateUserCursor(socketId, position)`: no-op when the user is
absent; otherwise updates the cursor and the room's `lastActivity`. -/
def updateUserCursor (st : RoomManager) (socketId : String) (position : Point)
    (now : Nat) : RoomManager :=
  match st.users socketId with
  | none => st
  | some user =>
    let st₁ :=
      { st with users := fun s =>
          if s = socketId then some { user with cursor := position } else st.users s }
    match st₁.rooms user.roomId with
    | none => st₁
    | some room =>
      { st₁ with rooms := fun r =>
          if r = user.roomId then some { room with lastActivity := now }
          else st₁.rooms r }

/-- A roster entry as produced by `getRoomUsers`. -/
structure RosterEntry where
  userId : String
  username : String
  userColor : String
  cursor : Point
  joinedAt : Nat
deriving DecidableEq, Repr

/-- Model of `getRoomUsers(roomId)`: iterates the member set, skipping socket
ids with no users-map entry, and projects the public fields. -/
def getRoomUsers (st : RoomManager) (roomId : String) : List RosterEntry :=
  match st.rooms roomId with
  | none => []
  | some room =>
    room.users.filterMap fun sid =>
      (st.users sid).map fun u =>
        { userId := u.userId, username := u.username, userColor := u.color,
          cursor := u.cursor, joinedAt := u.joinedAt }

end RoomManager

/-! ### Coordinator (server.js socket event handlers)

Each handler takes the sender's socket id, the event payload and the combined
server state, and returns the new state together with the list of messages
emitted, in emission order. -/

/-- Where an emitted message goes: `socket.emit` (to the sender only),
`socket.to(room).emit` (every member except the sender), or
`io.to(room).emit` (every member including the sender). -/
inductive Target where
  | toSender (sid : String)
  | relay (roomId sid : String)
  | room (roomId : String)
deriving DecidableEq, Repr

/-- One item of a `drawing-batch` payload; the server never inspects it. -/
structure BatchItem where
  kind : String
  src : Point
  dst : Point
  tool : String
  color : String
  size : Int
deriving DecidableEq, Repr

/-- The server→client events emitted by the handlers, with their payloads. -/
inductive OutEvent where
  | errorMsg (message : String)
  | userJoined (userId username userColor roomId : String)
  | initialCanvasStrokes (strokes : List Stroke)
  | usersUpdate (users : List RoomManager.RosterEntry)
  | remoteDrawingStroke (stroke : Stroke)
  | remoteDrawingBatch (batch : List BatchItem) (userId username userColor : String)
  | remoteUndoStroke (userId strokeId username : String)
  | remoteRedoStroke (userId : String) (stroke : Stroke) (username : String)
  | remoteClearUser (userId username : String)
  | remoteClearAll (clearedBy : String)
  | cursorPosition (userId username : String) (x y : Int) (color : String)
  | userDisconnected (sid : String)
deriving DecidableEq, Repr

/-- The combined server state: one `RoomManager` and one
`DrawingStateManager`, as created at the top of server.js. -/
structure ServerState where
  rm : RoomManager
  dsm : DrawingStateManager

/-- Messages emitted by a handler, in order. -/
abbrev Emits := List (Target × OutEvent)

/-- Handler for `join`: rejects a missing (empty) username with an error to
the sender; otherwise adds the user to the `"global"` room, acks the sender,
sends the current strokes to the sender when non-empty, and broadcasts the
updated roster to the whole room. -/
def handleJoin (sid username : String) (now : Nat) (st : ServerState) :
    ServerState × Emits :=
  if username = "" then
    (st, [(Target.toSender sid, OutEvent.errorMsg "Username is required")])
  else
    let roomId := "global"
    let (userInfo, rm') := st.rm.addUser sid username roomId now
    let currentStrokes := st.dsm.getRoomStrokes roomId
    let strokeMsgs : Emits :=
      if currentStrokes.length > 0 then
        [(Target.toSender sid, OutEvent.initialCanvasStrokes currentStrokes)]
      else []
    let usersInRoom := rm'.getRoomUsers roomId
    ({ st with rm := rm' },
     (Target.toSender sid,
        OutEvent.userJoined sid userInfo.username userInfo.color roomId)
       :: strokeMsgs
       ++ [(Target.room roomId, OutEvent.usersUpdate usersInRoom)])

/-- Handler for `drawing-stroke`: silently dropped for unregistered senders;
otherwise stamps the stroke with the registry's author fields (the spread
`{...strokeData, userId, username, userColor}`), stores it, and relays it. -/
def handleDrawingStroke (sid : String) (strokeData : Stroke) (st : ServerState) :
    ServerState × Emits :=
  match st.rm.getUser sid with
  | none => (st, [])
  | some user =>
    let stroke := { strokeData with
      userId := sid, username := user.username, userColor := user.color }
    let dsm' := (st.dsm.addStroke user.roomId stroke).2
    ({ st with dsm := dsm' },
     [(Target.relay user.roomId sid, OutEvent.remoteDrawingStroke stroke)])

/-- Handler for `drawing-batch`: no state change; relays the batch tagged
with the sender's registry identity. -/
def handleDrawingBatch (sid : String) (batch : List BatchItem) (st : ServerState) :
    ServerState × Emits :=
  match st.rm.getUser sid with
  | none => (st, [])
  | some user =>
    (st, [(Target.relay user.roomId sid,
           OutEvent.remoteDrawingBatch batch sid user.username user.color)])

/-- Handler for `undo-stroke`: removes the stroke by id and relays. -/
def handleUndoStroke (sid strokeId : String) (st : ServerState) :
    ServerState × Emits :=
  match st.rm.getUser sid with
  | none => (st, [])
  | some user =>
    let dsm' := (st.dsm.removeStroke user.roomId strokeId).2
    ({ st with dsm := dsm' },
     [(Target.relay user.roomId sid,
       OutEvent.remoteUndoStroke sid strokeId user.username)])

/-- Handler for `redo-stroke`: re-appends the client-supplied stroke verbatim
and relays. -/
def handleRedoStroke (sid : String) (strokeData : Stroke) (st : ServerState) :
    ServerState × Emits :=
  match st.rm.getUser sid with
  | none => (st, [])
  | some user =>
    let dsm' := (st.dsm.addStroke user.roomId strokeData).2
    ({ st with dsm := dsm' },
     [(Target.relay user.roomId sid,
       OutEvent.remoteRedoStroke sid strokeData user.username)])

/-- Handler for `clear-user-strokes`: removes the sender's strokes and
relays. -/
def handleClearUserStrokes (sid : String) (st : ServerState) :
    ServerState × Emits :=
  match st.rm.getUser sid with
  | none => (st, [])
  | some user =>
    let dsm' := st.dsm.clearUserStrokes user.roomId sid
    ({ st with dsm := dsm' },
     [(Target.relay user.roomId sid, OutEvent.remoteClearUser sid user.username)])

/-- Handler for `clear-all-canvas`: clears the room's log and broadcasts to
the whole room. -/
def handleClearAllCanvas (sid : String) (st : ServerState) :
    ServerState × Emits :=
  match st.rm.getUser sid with
  | none => (st, [])
  | some user =>
    let dsm' := st.dsm.clearRoomStrokes user.roomId
    ({ st with dsm := dsm' },
     [(Target.room user.roomId, OutEvent.remoteClearAll user.username)])

/-- Handler for `cursor-move`: updates the stored cursor and relays the
position. -/
def handleCursorMove (sid : String) (position : Point) (now : Nat)
    (st : ServerState) : ServerState × Emits :=
  match st.rm.getUser sid with
  | none => (st, [])
  | some user =>
    let rm' := st.rm.updateUserCursor sid position now
    ({ st with rm := rm' },
     [(Target.relay user.roomId sid,
       OutEvent.cursorPosition sid user.username position.1 position.2 user.color)])

/-- Handler for `disconnect`: removes the user when known, notifies the room
of the departure and broadcasts the fresh roster. -/
def handleDisconnect (sid : String) (now : Nat) (st : ServerState) :
    ServerState × Emits :=
  match st.rm.getUser sid with
  | none => (st, [])
  | some user =>
    let rm' := (st.rm.removeUser sid now).2
    ({ st with rm := rm' },
     [(Target.relay user.roomId sid, OutEvent.userDisconnected sid),
      (Target.room user.roomId, OutEvent.usersUpdate (rm'.getRoomUsers user.roomId))])

/-! ### Operation sequences over the Session Registry -/

/-- An atomic Session Registry mutation, for sequence-based claims. -/
inductive Op where
  | add (socketId username roomId : String) (now : Nat)
  | remove (socketId : String) (now : Nat)
deriving DecidableEq, Repr

/-- Run one registry mutation, discarding the returned user. -/
def execOp (st : RoomManager) : Op → RoomManager
  | Op.add sid un rid now => (st.addUser sid un rid now).2
  | Op.remove sid now => (st.removeUser sid now).2

/-- Run a sequence of registry mutations from left to right. -/
def execOps (st : RoomManager) (ops : List Op) : RoomManager :=
  ops.foldl execOp st

/-- Checks that no `add` in the sequence re-registers a connection id that is
registered at that point (the repeat-join situation of server.js never
producible by a well-behaved client, since a socket joins once). -/
def opsFresh (st : RoomManager) : List Op → Bool
  | [] => true
  | op :: rest =>
    (match op with
     | Op.add sid _ _ _ => (st.users sid).isNone
     | Op.remove _ _ => true) && opsFresh (execOp st op) rest

/-- The number of `addUser` calls in a sequence. -/
def countAdds : List Op → Nat
  | [] => 0
  | Op.add _ _ _ _ :: rest => countAdds rest + 1
  | Op.remove _ _ :: rest => countAdds rest

/-- The Session Registry consistency invariant of the spec: every member of a
room's member set has a users-map entry naming that room, and every users-map
entry's connection id is a member of the room named by its `roomId`. -/
def RegistryInv (st : RoomManager) : Prop :=
  (∀ rid room, st.rooms rid = some room → ∀ sid ∈ room.users,
     ∃ u, st.users sid = some u ∧ u.roomId = rid) ∧
  (∀ sid u, st.users sid = some u →
     ∃ room, st.rooms u.roomId = some room ∧ sid ∈ room.users)

/-- Auxiliary structural invariant: member lists are duplicate-free (the JS
`Set` can hold each socket id at most once). -/
def RoomsNodup (st : RoomManager) : Prop :=
  ∀ rid room, st.rooms rid = some room → room.users.Nodup

/-- Appending a whole list of strokes to one room, one `addStroke` call at a
time. -/
def appendAll (m : DrawingStateManager) (roomId : String) (ss : List Stroke) :
    DrawingStateManager :=
  ss.foldl (fun acc s => (acc.addStroke roomId s).2) m

/-- The effect of `appendAll` on one room's list. -/
def pushAll (cap : Nat) (l : List Stroke) (ss : List Stroke) : List Stroke :=
  ss.foldl (DrawingStateManager.pushCap cap) l

/-! ### Concrete inputs used by counterexamples and witnesses -/

/-- A server with no users and no strokes. -/
def emptyServer : ServerState := { rm := initRM, dsm := initDSM }

/-- A generic stroke used as witness input. -/
def wStroke : Stroke :=
  { id := "w1", path := [(0, 0), (1, 1)], tool := "brush", color := "#000000",
    size := 2, timestamp := 3, userId := "w", username := "W", userColor := "#FFFFFF" }

/-- A second generic stroke with a distinct id. -/
def wStroke2 : Stroke := { wStroke with id := "w2", userId := "v" }

/-- A stroke sharing `wStroke`'s id but authored differently. -/
def wStrokeDup : Stroke := { wStroke with userId := "v2", username := "V2" }

/-- The two-join sequence refuting the unrestricted registry invariant: the
same socket id joins room `"r1"` and then room `"r2"`. -/
def c1CexOps : List Op :=
  [Op.add "s" "u1" "r1" 0, Op.add "s" "u2" "r2" 1]

/-- A fresh-joins sequence for the witness of the amended registry claim. -/
def c1WitnessOps : List Op :=
  [Op.add "a" "ann" "g" 0, Op.add "b" "bob" "g" 1, Op.remove "a" 2]

/-- Registry after the user `"alice"` joined room `"global"` (she received
the first palette color `"#FF6B6B"`). -/
def c3Registry : RoomManager := (initRM.addUser "alice" "Alice" "global" 0).2

/-- Server state for the stroke-stamping counterexample. -/
def c3State : ServerState := { rm := c3Registry, dsm := initDSM }

/-- A client payload whose drawing color differs from the author's assigned
palette color, and whose author fields are spoofed. -/
def c3Payload : Stroke :=
  { id := "k1", path := [(1, 2)], tool := "brush", color := "#123456", size := 3,
    timestamp := 5, userId := "spoof", username := "Mallory", userColor := "#000000" }

/-- A stroke living in the room whose id is the empty string. -/
def c4Stroke : Stroke :=
  { id := "s1", path := [(0, 0)], tool := "brush", color := "#FF0000", size := 2,
    timestamp := 1, userId := "a", username := "A", userColor := "#FF6B6B" }

/-- A drawing state whose only log is under the empty-string room id. -/
def c4DSM : DrawingStateManager := (initDSM.addStroke "" c4Stroke).2

/-- Registry after socket `"s"` joined room `"r1"`. -/
def c9St : RoomManager := (initRM.addUser "s" "u" "r1" 0).2

/-- The user record created by that join. -/
def c9User : User :=
  { userId := "s", socketId := "s", username := "u", roomId := "r1",
    color := "#FF6B6B", joinedAt := 0, cursor := (0, 0) }

/-- The room record created by that join. -/
def c9Room : Room :=
  { roomId := "r1", users := ["s"], createdAt := 0, lastActivity := 0 }

/-! ## Helper lemmas about the Stroke Log -/

theorem spliceFirstById_eq_none {i : String} {l : List Stroke}
    (h : ∀ s ∈ l, s.id ≠ i) : DrawingStateManager.spliceFirstById i l = none := by
  induction l with
  | nil => rfl
  | cons s rest ih =>
    have hs : s.id ≠ i := h s (List.mem_cons_self s rest)
    simp [DrawingStateManager.spliceFirstById, hs,
      ih (fun x hx => h x (List.mem_cons_of_mem s hx))]

theorem addStroke_roomStrokes (m : DrawingStateManager) (roomId : String) (s : Stroke) :
    (m.addStroke roomId s).2.roomStrokes
      = fun r => if r = roomId then
          some (DrawingStateManager.pushCap m.maxStrokesPerRoom
            ((m.roomStrokes roomId).getD []) s)
        else m.roomStrokes r := rfl

theorem addStroke_max (m : DrawingStateManager) (roomId : String) (s : Stroke) :
    (m.addStroke roomId s).2.maxStrokesPerRoom = m.maxStrokesPerRoom := rfl

theorem spliceFirstById_append (i : String) (l₁ l₂ : List Stroke) (s : Stroke)
    (h₁ : ∀ s' ∈ l₁, s'.id ≠ i) (hs : s.id = i) :
    DrawingStateManager.spliceFirstById i (l₁ ++ s :: l₂) = some (l₁ ++ l₂) := by
  induction l₁ with
  | nil => simp [DrawingStateManager.spliceFirstById, hs]
  | cons a rest ih =>
    have ha : a.id ≠ i := h₁ a (List.mem_cons_self a rest)
    simp [DrawingStateManager.spliceFirstById, ha,
      ih (fun x hx => h₁ x (List.mem_cons_of_mem a hx))]

/-! ## Claim theorems for the Stroke Log operations -/

/-- C6: `removeStroke` returns `false` and leaves the state unchanged when
the room is unknown or no stroke carries the id; when a first matching entry
exists it returns `true`, removes exactly that entry (other rooms untouched),
and — when ids are unique in the log — a subsequent `getRoomStrokes` no
longer contains the removed id. -/
theorem claim_C6 (m : DrawingStateManager) (r i : String) :
    (m.roomStrokes r = none → m.removeStroke r i = (false, m))
  ∧ (∀ l, m.roomStrokes r = some l → (∀ s ∈ l, s.id ≠ i) →
      m.removeStroke r i = (false, m))
  ∧ (∀ l₁ s l₂, m.roomStrokes r = some (l₁ ++ s :: l₂) → s.id = i →
      (∀ s' ∈ l₁, s'.id ≠ i) →
      (m.removeStroke r i).1 = true
      ∧ (m.removeStroke r i).2.getRoomStrokes r = l₁ ++ l₂
      ∧ (∀ r', r' ≠ r → (m.removeStroke r i).2.roomStrokes r' = m.roomStrokes r')
      ∧ (((l₁ ++ s :: l₂).map Stroke.id).Nodup →
           i ∉ ((m.removeStroke r i).2.getRoomStrokes r).map Stroke.id)) := by
  refine ⟨fun h => ?_, fun l hl hnone => ?_, fun l₁ s l₂ hl hs hfirst => ?_⟩
  · simp [DrawingStateManager.removeStroke, h]
  · simp [DrawingStateManager.removeStroke, hl, spliceFirstById_eq_none hnone]
  · subst hs
    have hsp := spliceFirstById_append s.id l₁ l₂ s hfirst rfl
    have hres : (m.removeStroke r s.id).2.getRoomStrokes r = l₁ ++ l₂ := by
      simp [DrawingStateManager.removeStroke, DrawingStateManager.getRoomStrokes, hl, hsp]
    refine ⟨?_, hres, ?_, ?_⟩
    · simp [DrawingStateManager.removeStroke, hl, hsp]
    · intro r' hr'
      simp [DrawingStateManager.removeStroke, hl, hsp, hr']
    · intro hnd
      rw [hres]
      intro hmem
      rw [List.map_append, List.map_cons] at hnd
      rw [List.map_append, List.mem_append] at hmem
      obtain ⟨h1, h2, hdisj⟩ := List.nodup_append.1 hnd
      rcases hmem with hmem | hmem
      · exact hdisj hmem (List.mem_cons_self _ _)
      · exact (List.nodup_cons.1 h2).1 hmem

/-- C7: `clearUserStrokes` leaves no stroke of the given author in the room,
replaces the room's log with the order-preserving filtrate, and leaves every
other room's log untouched. -/
theorem claim_C7 (m : DrawingStateManager) (r u : String) :
    (∀ s ∈ (m.clearUserStrokes r u).getRoomStrokes r, s.userId ≠ u)
  ∧ (m.clearUserStrokes r u).getRoomStrokes r
      = (m.getRoomStrokes r).filter (fun s => s.userId != u)
  ∧ (∀ r', r' ≠ r → (m.clearUserStrokes r u).roomStrokes r' = m.roomStrokes r') := by
  cases hl : m.roomStrokes r with
  | none =>
    refine ⟨?_, ?_, ?_⟩
    · intro s hs
      simp [DrawingStateManager.clearUserStrokes, DrawingStateManager.getRoomStrokes,
        hl] at hs
    · simp [DrawingStateManager.clearUserStrokes, DrawingStateManager.getRoomStrokes, hl]
    · intro r' _
      simp [DrawingStateManager.clearUserStrokes, hl]
  | some l =>
    refine ⟨?_, ?_, ?_⟩
    · intro s hs
      simp [DrawingStateManager.clearUserStrokes, DrawingStateManager.getRoomStrokes,
        hl, List.mem_filter] at hs
      exact hs.2
    · simp [DrawingStateManager.clearUserStrokes, DrawingStateManager.getRoomStrokes, hl]
    · intro r' hr'
      simp [DrawingStateManager.clearUserStrokes, hl, hr']

/-- C10: `addStroke` never checks id uniqueness — a second stroke with an id
already in the room's log is appended and both entries survive; a
`removeStroke` with that id then returns `true` but removes only the first
occurrence, leaving the duplicate; and the `redo-stroke` handler re-appends
any client-supplied stroke verbatim for a registered sender. -/
theorem claim_C10 (r : String) (s₁ s₂ : Stroke) (h : s₁.id = s₂.id) :
    ((initDSM.addStroke r s₁).2.addStroke r s₂).1 = true
  ∧ ((initDSM.addStroke r s₁).2.addStroke r s₂).2.getRoomStrokes r = [s₁, s₂]
  ∧ (((initDSM.addStroke r s₁).2.addStroke r s₂).2.removeStroke r s₂.id).1 = true
  ∧ (((initDSM.addStroke r s₁).2.addStroke r s₂).2.removeStroke r s₂.id).2.getRoomStrokes r
      = [s₂]
  ∧ (∀ st sid u, st.rm.getUser sid = some u →
      (handleRedoStroke sid s₂ st).1.dsm = (st.dsm.addStroke u.roomId s₂).2
      ∧ (handleRedoStroke sid s₂ st).2
          = [(Target.relay u.roomId sid, OutEvent.remoteRedoStroke sid s₂ u.username)]) := by
  have h2 : ((initDSM.addStroke r s₁).2.addStroke r s₂).2.roomStrokes r = some [s₁, s₂] := by
    simp [addStroke_roomStrokes, addStroke_max, DrawingStateManager.pushCap, initDSM]
  have h3 : DrawingStateManager.spliceFirstById s₂.id [s₁, s₂] = some [s₂] := by
    simp [DrawingStateManager.spliceFirstById, h]
  refine ⟨rfl, ?_, ?_, ?_, ?_⟩
  · simp [DrawingStateManager.getRoomStrokes, h2]
  · simp [DrawingStateManager.removeStroke, h2, h3]
  · simp [DrawingStateManager.removeStroke, DrawingStateManager.getRoomStrokes, h2, h3]
  · intro st sid u hu
    exact ⟨by simp [handleRedoStroke, hu], by simp [handleRedoStroke, hu]⟩

/-- Witness for C10 at concrete strokes sharing the id `"w1"`. -/
theorem claim_C10_witness :
    wStroke.id = wStrokeDup.id
  ∧ ((initDSM.addStroke "g" wStroke).2.addStroke "g" wStrokeDup).2.getRoomStrokes "g"
      = [wStroke, wStrokeDup] :=
  ⟨rfl, (claim_C10 "g" wStroke wStrokeDup rfl).2.1⟩

/-- C8: every non-join event from an unregistered sender is silently dropped
(state unchanged, nothing emitted), and a join with a missing (empty)
username emits only an error to the sender and mutates nothing. -/
theorem claim_C8 (st : ServerState) (sid : String) (sd s : Stroke)
    (batch : List BatchItem) (i : String) (p : Point) (now : Nat)
    (h : st.rm.getUser sid = none) :
    handleDrawingStroke sid sd st = (st, [])
  ∧ handleDrawingBatch sid batch st = (st, [])
  ∧ handleUndoStroke sid i st = (st, [])
  ∧ handleRedoStroke sid s st = (st, [])
  ∧ handleClearUserStrokes sid st = (st, [])
  ∧ handleClearAllCanvas sid st = (st, [])
  ∧ handleCursorMove sid p now st = (st, [])
  ∧ (∀ st' : ServerState, handleJoin sid "" now st'
      = (st', [(Target.toSender sid, OutEvent.errorMsg "Username is required")])) := by
  refine ⟨?_, ?_, ?_, ?_, ?_, ?_, ?_, ?_⟩
  · simp [handleDrawingStroke, h]
  · simp [handleDrawingBatch, h]
  · simp [handleUndoStroke, h]
  · simp [handleRedoStroke, h]
  · simp [handleClearUserStrokes, h]
  · simp [handleClearAllCanvas, h]
  · simp [handleCursorMove, h]
  · intro st'
    simp [handleJoin]

/-- Witness for C8: the empty server has no user `"z"`, and a stroke from
`"z"` is dropped. -/
theorem claim_C8_witness :
    emptyServer.rm.getUser "z" = none
  ∧ handleDrawingStroke "z" wStroke emptyServer = (emptyServer, []) :=
  ⟨rfl, (claim_C8 emptyServer "z" wStroke wStroke [] "i" (0, 0) 0 rfl).1⟩

/-- C3 (amended): for a registered sender the stored and relayed stroke is
the client payload with the three author fields `userId`, `username` and
`userColor` overwritten from the registry — `userId` is the sender's
connection id and `userColor` the registered color — while the stroke's
`color` field (the tool color) is kept from the client payload. -/
theorem claim_C3 (st : ServerState) (sid : String) (sd : Stroke) (u : User)
    (h : st.rm.getUser sid = some u) :
    (handleDrawingStroke sid sd st).1.dsm
      = (st.dsm.addStroke u.roomId
          { sd with userId := sid, username := u.username, userColor := u.color }).2
  ∧ (handleDrawingStroke sid sd st).1.rm = st.rm
  ∧ (handleDrawingStroke sid sd st).2
      = [(Target.relay u.roomId sid, OutEvent.remoteDrawingStroke
          { sd with userId := sid, username := u.username, userColor := u.color })]
  ∧ ({ sd with userId := sid, username := u.username, userColor := u.color } : Stroke).userId
      = sid
  ∧ ({ sd with userId := sid, username := u.username, userColor := u.color } : Stroke).username
      = u.username
  ∧ ({ sd with userId := sid, username := u.username, userColor := u.color } : Stroke).userColor
      = u.color
  ∧ ({ sd with userId := sid, username := u.username, userColor := u.color } : Stroke).color
      = sd.color
  ∧ ({ sd with userId := sid, username := u.username, userColor := u.color } : Stroke).id
      = sd.id := by
  refine ⟨?_, ?_, ?_, rfl, rfl, rfl, rfl, rfl⟩ <;> simp [handleDrawingStroke, h]

/-- Witness for C3 at the concrete registered user `"alice"`. -/
theorem claim_C3_witness :
    c3State.rm.getUser "alice" = some (initRM.addUser "alice" "Alice" "global" 0).1
  ∧ (handleDrawingStroke "alice" c3Payload c3State).1.rm = c3State.rm :=
  ⟨rfl, (claim_C3 c3State "alice" c3Payload (initRM.addUser "alice" "Alice" "global" 0).1
      rfl).2.1⟩

/-- Counterexample to C3 as stated: the stored stroke's `color` field keeps
the client-supplied tool color `"#123456"`, which differs from the author's
registry-assigned color `"#FF6B6B"` (the registry color only lands in the
separate `userColor` field). -/
theorem claim_C3_cex :
    (handleDrawingStroke "alice" c3Payload c3State).1.dsm.getRoomStrokes "global"
      = [{ c3Payload with userId := "alice", username := "Alice", userColor := "#FF6B6B" }]
  ∧ (c3State.rm.getUser "alice").map User.color = some "#FF6B6B"
  ∧ ({ c3Payload with
        userId := "alice", username := "Alice", userColor := "#FF6B6B" } : Stroke).color
      = "#123456"
  ∧ ("#123456" : String) ≠ "#FF6B6B" := by
  refine ⟨rfl, rfl, rfl, by decide⟩

/-- C4 (amended): for any room with a non-empty (truthy) id whose log
exists, `importRoomData(exportRoomData(r))` returns `true` and reproduces
the identical stroke list for `r`, leaving every room's log as it was;
`importRoomData` returns `false` and changes nothing when the snapshot is
absent or its `roomId` is empty. -/
theorem claim_C4 (m : DrawingStateManager) (r : String) (l : List Stroke) (now : Nat)
    (h₁ : m.roomStrokes r = some l) (h₂ : r ≠ "") :
    (m.importRoomData (m.exportRoomData r now)).1 = true
  ∧ (m.importRoomData (m.exportRoomData r now)).2.getRoomStrokes r = l
  ∧ (∀ r', (m.importRoomData (m.exportRoomData r now)).2.roomStrokes r' = m.roomStrokes r')
  ∧ m.importRoomData none = (false, m)
  ∧ (∀ d : DrawingStateManager.RoomExport, d.roomId = "" →
      m.importRoomData (some d) = (false, m)) := by
  have hexp : m.exportRoomData r now = some ⟨r, l, now⟩ := by
    simp [DrawingStateManager.exportRoomData, h₁]
  refine ⟨?_, ?_, ?_, rfl, ?_⟩
  · simp [hexp, DrawingStateManager.importRoomData, h₂]
  · simp [hexp, DrawingStateManager.importRoomData, h₂, DrawingStateManager.getRoomStrokes]
  · intro r'
    by_cases hr : r' = r
    · subst hr
      simp [hexp, DrawingStateManager.importRoomData, h₂, h₁]
    · simp [hexp, DrawingStateManager.importRoomData, h₂, hr]
  · intro d hd
    simp [DrawingStateManager.importRoomData, hd]

/-- Witness for C4 at a one-stroke log under room `"g"`. -/
theorem claim_C4_witness :
    (initDSM.addStroke "g" wStroke).2.roomStrokes "g" = some [wStroke]
  ∧ ("g" : String) ≠ ""
  ∧ ((initDSM.addStroke "g" wStroke).2.importRoomData
       ((initDSM.addStroke "g" wStroke).2.exportRoomData "g" 7)).1 = true :=
  ⟨rfl, by decide, (claim_C4 (initDSM.addStroke "g" wStroke).2 "g" [wStroke] 7 rfl
      (by decide)).1⟩

/-- Counterexample to C4 as stated: the room whose id is the empty string
has a log, yet restoring its own snapshot returns `false`, because
`importRoomData` treats the falsy empty `roomId` as missing. -/
theorem claim_C4_cex :
    c4DSM.roomStrokes "" = some [c4Stroke]
  ∧ (c4DSM.importRoomData (c4DSM.exportRoomData "" 7)).1 = false :=
  ⟨rfl, rfl⟩

/-! ## Color-index lemmas for the round-robin claim -/

theorem execOp_colorPalette (st : RoomManager) (op : Op) :
    (execOp st op).colorPalette = st.colorPalette := by
  cases op with
  | add sid un rid now => rfl
  | remove sid now =>
    cases h : st.users sid with
    | none => simp [execOp, RoomManager.removeUser, h]
    | some u => simp [execOp, RoomManager.removeUser, h]

theorem execOp_colorIndex (st : RoomManager) (op : Op) :
    (execOp st op).colorIndex = st.colorIndex + countAdds [op] := by
  cases op with
  | add sid un rid now => rfl
  | remove sid now =>
    cases h : st.users sid with
    | none => simp [execOp, RoomManager.removeUser, h, countAdds]
    | some u => simp [execOp, RoomManager.removeUser, h, countAdds]

theorem execOps_colorPalette (ops : List Op) (st : RoomManager) :
    (execOps st ops).colorPalette = st.colorPalette := by
  induction ops generalizing st with
  | nil => rfl
  | cons op rest ih =>
    have hstep : execOps st (op :: rest) = execOps (execOp st op) rest := rfl
    rw [hstep, ih, execOp_colorPalette]

theorem execOps_colorIndex (ops : List Op) (st : RoomManager) :
    (execOps st ops).colorIndex = st.colorIndex + countAdds ops := by
  induction ops generalizing st with
  | nil => simp [execOps, countAdds]
  | cons op rest ih =>
    have hstep : execOps st (op :: rest) = execOps (execOp st op) rest := rfl
    rw [hstep, ih, execOp_colorIndex]
    cases op with
    | add a b c d => simp [countAdds]; omega
    | remove a b => simp [countAdds]

/-! ## Bounded-log lemmas for the FIFO-cap claim -/

theorem pushCap_def (cap : Nat) (l : List Stroke) (s : Stroke) :
    DrawingStateManager.pushCap cap l s
      = if l.length + 1 > cap then (l ++ [s]).drop 1 else l ++ [s] := by
  simp [DrawingStateManager.pushCap]

theorem pushCap_length_le (cap : Nat) (l : List Stroke) (s : Stroke)
    (h : l.length ≤ cap) : (DrawingStateManager.pushCap cap l s).length ≤ cap := by
  rw [pushCap_def]
  split
  · simp only [List.length_drop, List.length_append, List.length_singleton]
    omega
  · simp only [List.length_append, List.length_singleton]
    omega

theorem pushAll_eq (cap : Nat) (ss l : List Stroke) (h : l.length ≤ cap) :
    pushAll cap l ss = (l ++ ss).drop (l.length + ss.length - cap) := by
  induction ss generalizing l with
  | nil => simp [pushAll, Nat.sub_eq_zero_of_le h]
  | cons s ss ih =>
    have hstep : pushAll cap l (s :: ss)
        = pushAll cap (DrawingStateManager.pushCap cap l s) ss := rfl
    rw [hstep, ih _ (pushCap_length_le cap l s h), pushCap_def]
    by_cases hc : l.length + 1 > cap
    · rw [if_pos hc]
      have hlist : (l ++ [s]).drop 1 ++ ss = (l ++ s :: ss).drop 1 := by
        rw [← List.drop_append_of_le_length (by simp : 1 ≤ (l ++ [s]).length)]
        congr 1
        simp
      rw [hlist, List.drop_drop]
      congr 1
      simp only [List.length_drop, List.length_append, List.length_singleton,
        List.length_cons, List.length_nil]
      omega
    · rw [if_neg hc]
      have hlist : (l ++ [s]) ++ ss = l ++ s :: ss := by simp
      rw [hlist]
      congr 1
      simp only [List.length_append, List.length_singleton, List.length_cons,
        List.length_nil]
      omega

theorem appendAll_roomStrokes (m : DrawingStateManager) (roomId : String)
    (ss : List Stroke) :
    (appendAll m roomId ss).getRoomStrokes roomId
      = pushAll m.maxStrokesPerRoom (m.getRoomStrokes roomId) ss
  ∧ (appendAll m roomId ss).maxStrokesPerRoom = m.maxStrokesPerRoom := by
  induction ss generalizing m with
  | nil => exact ⟨rfl, rfl⟩
  | cons s ss ih =>
    have hstep : appendAll m roomId (s :: ss)
        = appendAll (m.addStroke roomId s).2 roomId ss := rfl
    obtain ⟨ih1, ih2⟩ := ih (m.addStroke roomId s).2
    have hget : (m.addStroke roomId s).2.getRoomStrokes roomId
        = DrawingStateManager.pushCap m.maxStrokesPerRoom (m.getRoomStrokes roomId) s := by
      simp [DrawingStateManager.getRoomStrokes, addStroke_roomStrokes]
    constructor
    · rw [hstep, ih1, addStroke_max, hget]
      rfl
    · rw [hstep, ih2, addStroke_max]

/-- C2: each `addStroke` keeps a room's log at or below the 10000-stroke cap
(so after every prefix of the appends the length is bounded), the log after
appending a list of strokes from a fresh state is exactly the suffix of the
last 10000 appended strokes (each eviction drops the oldest survivor), and
appending 10001 strokes leaves exactly 10000, starting with the 2nd stroke
ever inserted. -/
theorem claim_C2 (r : String) (ss pre suf : List Stroke) (hsplit : ss = pre ++ suf) :
    ((appendAll initDSM r pre).getRoomStrokes r).length ≤ 10000
  ∧ (appendAll initDSM r ss).getRoomStrokes r = ss.drop (ss.length - 10000)
  ∧ (ss.length = 10001 →
      (appendAll initDSM r ss).getRoomStrokes r = ss.drop 1
      ∧ ((appendAll initDSM r ss).getRoomStrokes r).length = 10000
      ∧ ((appendAll initDSM r ss).getRoomStrokes r).head? = ss[1]?) := by
  have key : ∀ t : List Stroke,
      (appendAll initDSM r t).getRoomStrokes r = t.drop (t.length - 10000) := by
    intro t
    have h1 := (appendAll_roomStrokes initDSM r t).1
    have hmax : initDSM.maxStrokesPerRoom = 10000 := rfl
    have hinit : initDSM.getRoomStrokes r = [] := rfl
    rw [h1, hmax, hinit, pushAll_eq 10000 t [] (by simp)]
    simp
  refine ⟨?_, key ss, fun hlen => ⟨?_, ?_, ?_⟩⟩
  · rw [key pre]
    simp only [List.length_drop]
    omega
  · rw [key ss, hlen]
  · rw [key ss]
    simp only [List.length_drop]
    omega
  · rw [key ss, hlen, List.head?_drop]

/-- Witness for C2 at a one-stroke append. -/
theorem claim_C2_witness :
    ([wStroke] : List Stroke) = [wStroke] ++ []
  ∧ ((appendAll initDSM "g" [wStroke]).getRoomStrokes "g").length ≤ 10000 :=
  ⟨by simp, (claim_C2 "g" [wStroke] [wStroke] [] (by simp)).1⟩

/-! ## Member-set and `addUser` characterization lemmas -/

theorem mem_listSetAdd {l : List String} {x y : String} :
    y ∈ listSetAdd l x ↔ y ∈ l ∨ y = x := by
  by_cases hx : x ∈ l
  · simp only [listSetAdd, if_pos hx]
    exact ⟨Or.inl, fun h => h.elim id (fun hyx => hyx ▸ hx)⟩
  · simp [listSetAdd, hx]

theorem mem_listSetAdd_self (l : List String) (x : String) : x ∈ listSetAdd l x :=
  mem_listSetAdd.2 (Or.inr rfl)

theorem listSetAdd_nodup {l : List String} (x : String) (h : l.Nodup) :
    (listSetAdd l x).Nodup := by
  by_cases hx : x ∈ l
  · simp only [listSetAdd, if_pos hx]
    exact h
  · simp only [listSetAdd, if_neg hx]
    rw [List.nodup_append]
    refine ⟨h, List.nodup_singleton x, ?_⟩
    intro a ha hax
    rw [List.mem_singleton] at hax
    exact hx (hax ▸ ha)

theorem addUser_users (st : RoomManager) (sid un rid : String) (now : Nat) :
    (st.addUser sid un rid now).2.users
      = fun s => if s = sid then some (st.addUser sid un rid now).1 else st.users s := rfl

theorem addUser_rooms_of_some (st : RoomManager) (sid un rid : String) (now : Nat)
    (room : Room) (h : st.rooms rid = some room) :
    (st.addUser sid un rid now).2.rooms
      = fun r => if r = rid then
          some { room with users := listSetAdd room.users sid, lastActivity := now }
        else st.rooms r := by
  simp [RoomManager.addUser, RoomManager.getNextColor, h]

theorem addUser_rooms_of_none (st : RoomManager) (sid un rid : String) (now : Nat)
    (h : st.rooms rid = none) :
    (st.addUser sid un rid now).2.rooms
      = fun r => if r = rid then
          some { roomId := rid, users := [sid], createdAt := now, lastActivity := now }
        else st.rooms r := by
  simp [RoomManager.addUser, RoomManager.getNextColor, h, listSetAdd]

/-- C9: a repeat `addUser` for a live connection id silently overwrites the
users-map entry with a fresh record (new palette color, new `joinedAt`, the
new room id), adds the id to the new room's member set, and leaves the old
room's member set — including the now-stale membership — untouched. -/
theorem claim_C9 (st : RoomManager) (sid un rid : String) (now : Nat)
    (u₀ : User) (room₀ : Room)
    (h₀ : st.users sid = some u₀)
    (hroom : st.rooms u₀.roomId = some room₀)
    (hmem : sid ∈ room₀.users)
    (hne : u₀.roomId ≠ rid) :
    (st.addUser sid un rid now).2.users sid = some (st.addUser sid un rid now).1
  ∧ (st.addUser sid un rid now).1.roomId = rid
  ∧ (st.addUser sid un rid now).1.joinedAt = now
  ∧ (st.addUser sid un rid now).1.color
      = st.colorPalette.getD (st.colorIndex % st.colorPalette.length) ""
  ∧ (st.addUser sid un rid now).2.colorIndex = st.colorIndex + 1
  ∧ (∃ room', (st.addUser sid un rid now).2.rooms rid = some room' ∧ sid ∈ room'.users)
  ∧ (st.addUser sid un rid now).2.rooms u₀.roomId = some room₀
  ∧ sid ∈ room₀.users := by
  have husers := addUser_users st sid un rid now
  refine ⟨?_, rfl, rfl, rfl, rfl, ?_, ?_, hmem⟩
  · simp only [husers]
    simp
  · cases hr : st.rooms rid with
    | some room =>
      rw [addUser_rooms_of_some st sid un rid now room hr]
      refine ⟨{ room with users := listSetAdd room.users sid, lastActivity := now },
        by simp, ?_⟩
      exact mem_listSetAdd_self room.users sid
    | none =>
      rw [addUser_rooms_of_none st sid un rid now hr]
      exact ⟨{ roomId := rid, users := [sid], createdAt := now, lastActivity := now },
        by simp, by simp⟩
  · cases hr : st.rooms rid with
    | some room =>
      rw [addUser_rooms_of_some st sid un rid now room hr]
      simp [hne, hroom]
    | none =>
      rw [addUser_rooms_of_none st sid un rid now hr]
      simp [hne, hroom]

/-- Witness for C9: socket `"s"` (registered in `"r1"`) re-joins as `"r2"`;
its stale membership in `"r1"` survives. -/
theorem claim_C9_witness :
    (c9St.users "s" = some c9User ∧ c9St.rooms c9User.roomId = some c9Room
      ∧ "s" ∈ c9Room.users ∧ c9User.roomId ≠ "r2")
  ∧ ((c9St.addUser "s" "v" "r2" 1).2.rooms c9User.roomId = some c9Room
      ∧ "s" ∈ c9Room.users) := by
  have h := claim_C9 c9St "s" "v" "r2" 1 c9User c9Room (by decide) (by decide) (by decide)
    (by decide)
  exact ⟨⟨by decide, by decide, by decide, by decide⟩, h.2.2.2.2.2.2⟩

/-! ## Registry invariant preservation -/

theorem removeUser_of_none (st : RoomManager) (sid : String) (now : Nat)
    (h : st.users sid = none) : st.removeUser sid now = (none, st) := by
  simp [RoomManager.removeUser, h]

theorem removeUser_users_of_some (st : RoomManager) (sid : String) (now : Nat)
    (user : User) (h : st.users sid = some user) :
    (st.removeUser sid now).2.users = fun s => if s = sid then none else st.users s := by
  simp [RoomManager.removeUser, h]

theorem removeUser_rooms_of_noroom (st : RoomManager) (sid : String) (now : Nat)
    (user : User) (h : st.users sid = some user)
    (hr : st.rooms user.roomId = none) :
    (st.removeUser sid now).2.rooms = st.rooms := by
  simp [RoomManager.removeUser, h, hr]

theorem removeUser_rooms_of_empty (st : RoomManager) (sid : String) (now : Nat)
    (user : User) (room : Room) (h : st.users sid = some user)
    (hr : st.rooms user.roomId = some room)
    (he : (room.users.erase sid).isEmpty = true) :
    (st.removeUser sid now).2.rooms
      = fun r => if r = user.roomId then none else st.rooms r := by
  simp [RoomManager.removeUser, h, hr, he]

theorem removeUser_rooms_of_nonempty (st : RoomManager) (sid : String) (now : Nat)
    (user : User) (room : Room) (h : st.users sid = some user)
    (hr : st.rooms user.roomId = some room)
    (he : (room.users.erase sid).isEmpty = false) :
    (st.removeUser sid now).2.rooms
      = fun r => if r = user.roomId then
          some { room with users := room.users.erase sid, lastActivity := now }
        else st.rooms r := by
  simp [RoomManager.removeUser, h, hr, he]

theorem addUser_wf (st : RoomManager) (sid un rid : String) (now : Nat)
    (hfresh : st.users sid = none) (hinv : RegistryInv st) (hnd : RoomsNodup st) :
    RegistryInv (st.addUser sid un rid now).2 ∧ RoomsNodup (st.addUser sid un rid now).2 := by
  obtain ⟨hdir1, hdir2⟩ := hinv
  have husers := addUser_users st sid un rid now
  have huroom : (st.addUser sid un rid now).1.roomId = rid := rfl
  cases hr : st.rooms rid with
  | some room0 =>
    have hrooms := addUser_rooms_of_some st sid un rid now room0 hr
    refine ⟨⟨?_, ?_⟩, ?_⟩
    · intro rid' room' hroom' sid' hmem'
      simp only [hrooms] at hroom'
      by_cases hq : rid' = rid
      · subst hq
        rw [if_pos rfl] at hroom'
        injection hroom' with hre
        subst hre
        have hm2 : sid' ∈ listSetAdd room0.users sid := hmem'
        rcases mem_listSetAdd.1 hm2 with hold | rfl
        · obtain ⟨u, hu, hurid⟩ := hdir1 rid' room0 hr sid' hold
          have hne : sid' ≠ sid := by
            intro heq
            subst heq
            rw [hfresh] at hu
            cases hu
          refine ⟨u, ?_, hurid⟩
          simp only [husers]
          rw [if_neg hne]
          exact hu
        · exact ⟨(st.addUser sid' un rid' now).1, by simp [husers], huroom⟩
      · rw [if_neg hq] at hroom'
        obtain ⟨u, hu, hurid⟩ := hdir1 rid' room' hroom' sid' hmem'
        have hne : sid' ≠ sid := by
          intro heq
          subst heq
          rw [hfresh] at hu
          cases hu
        refine ⟨u, ?_, hurid⟩
        simp only [husers]
        rw [if_neg hne]
        exact hu
    · intro sid' u' hu'
      simp only [husers] at hu'
      by_cases hq : sid' = sid
      · subst hq
        rw [if_pos rfl] at hu'
        injection hu' with hue
        subst hue
        rw [huroom]
        simp only [hrooms]
        refine ⟨{ room0 with users := listSetAdd room0.users sid', lastActivity := now },
          by simp, ?_⟩
        exact mem_listSetAdd_self room0.users sid'
      · rw [if_neg hq] at hu'
        obtain ⟨roomx, hrx, hmx⟩ := hdir2 sid' u' hu'
        by_cases hq2 : u'.roomId = rid
        · rw [hq2] at hrx ⊢
          rw [hr] at hrx
          injection hrx with hre
          subst hre
          simp only [hrooms]
          refine ⟨{ room0 with users := listSetAdd room0.users sid, lastActivity := now },
            by simp, ?_⟩
          exact mem_listSetAdd.2 (Or.inl hmx)
        · simp only [hrooms]
          refine ⟨roomx, ?_, hmx⟩
          rw [if_neg hq2]
          exact hrx
    · intro rid' room' hroom'
      simp only [hrooms] at hroom'
      by_cases hq : rid' = rid
      · subst hq
        rw [if_pos rfl] at hroom'
        injection hroom' with hre
        subst hre
        exact listSetAdd_nodup sid (hnd rid' room0 hr)
      · rw [if_neg hq] at hroom'
        exact hnd rid' room' hroom'
  | none =>
    have hrooms := addUser_rooms_of_none st sid un rid now hr
    refine ⟨⟨?_, ?_⟩, ?_⟩
    · intro rid' room' hroom' sid' hmem'
      simp only [hrooms] at hroom'
      by_cases hq : rid' = rid
      · subst hq
        rw [if_pos rfl] at hroom'
        injection hroom' with hre
        subst hre
        have hm2 : sid' ∈ [sid] := hmem'
        rw [List.mem_singleton] at hm2
        subst hm2
        exact ⟨(st.addUser sid' un rid' now).1, by simp [husers], huroom⟩
      · rw [if_neg hq] at hroom'
        obtain ⟨u, hu, hurid⟩ := hdir1 rid' room' hroom' sid' hmem'
        have hne : sid' ≠ sid := by
          intro heq
          subst heq
          rw [hfresh] at hu
          cases hu
        refine ⟨u, ?_, hurid⟩
        simp only [husers]
        rw [if_neg hne]
        exact hu
    · intro sid' u' hu'
      simp only [husers] at hu'
      by_cases hq : sid' = sid
      · subst hq
        rw [if_pos rfl] at hu'
        injection hu' with hue
        subst hue
        rw [huroom]
        simp only [hrooms]
        exact ⟨{ roomId := rid, users := [sid'], createdAt := now, lastActivity := now },
          by simp, by simp⟩
      · rw [if_neg hq] at hu'
        obtain ⟨roomx, hrx, hmx⟩ := hdir2 sid' u' hu'
        by_cases hq2 : u'.roomId = rid
        · rw [hq2] at hrx
          rw [hr] at hrx
          cases hrx
        · simp only [hrooms]
          refine ⟨roomx, ?_, hmx⟩
          rw [if_neg hq2]
          exact hrx
    · intro rid' room' hroom'
      simp only [hrooms] at hroom'
      by_cases hq : rid' = rid
      · subst hq
        rw [if_pos rfl] at hroom'
        injection hroom' with hre
        subst hre
        exact List.nodup_singleton sid
      · rw [if_neg hq] at hroom'
        exact hnd rid' room' hroom'

theorem removeUser_wf (st : RoomManager) (sid : String) (now : Nat)
    (hinv : RegistryInv st) (hnd : RoomsNodup st) :
    RegistryInv (st.removeUser sid now).2 ∧ RoomsNodup (st.removeUser sid now).2 := by
  obtain ⟨hdir1, hdir2⟩ := hinv
  cases hu : st.users sid with
  | none =>
    have hid : (st.removeUser sid now).2 = st := by
      rw [removeUser_of_none st sid now hu]
    rw [hid]
    exact ⟨⟨hdir1, hdir2⟩, hnd⟩
  | some user =>
    obtain ⟨room0, hr0, hm0⟩ := hdir2 sid user hu
    have husers := removeUser_users_of_some st sid now user hu
    have hndr := hnd user.roomId room0 hr0
    cases hbe : (room0.users.erase sid).isEmpty with
    | true =>
      have hrooms := removeUser_rooms_of_empty st sid now user room0 hu hr0 hbe
      have hempty : room0.users.erase sid = [] := List.isEmpty_iff.1 hbe
      refine ⟨⟨?_, ?_⟩, ?_⟩
      · intro rid' room' hroom' sid' hmem'
        simp only [hrooms] at hroom'
        by_cases hq : rid' = user.roomId
        · rw [if_pos hq] at hroom'
          cases hroom'
        · rw [if_neg hq] at hroom'
          obtain ⟨u2, hu2, hu2rid⟩ := hdir1 rid' room' hroom' sid' hmem'
          have hne : sid' ≠ sid := by
            intro heq
            subst heq
            rw [hu] at hu2
            injection hu2 with hq2
            subst hq2
            exact hq hu2rid.symm
          refine ⟨u2, ?_, hu2rid⟩
          simp only [husers]
          rw [if_neg hne]
          exact hu2
      · intro sid' u' hu'
        simp only [husers] at hu'
        by_cases hq : sid' = sid
        · rw [if_pos hq] at hu'
          cases hu'
        · rw [if_neg hq] at hu'
          obtain ⟨roomx, hrx, hmx⟩ := hdir2 sid' u' hu'
          by_cases hq2 : u'.roomId = user.roomId
          · rw [hq2] at hrx
            rw [hr0] at hrx
            injection hrx with hre
            subst hre
            exfalso
            have hin : sid' ∈ room0.users.erase sid := (List.mem_erase_of_ne hq).2 hmx
            rw [hempty] at hin
            cases hin
          · simp only [hrooms]
            refine ⟨roomx, ?_, hmx⟩
            rw [if_neg hq2]
            exact hrx
      · intro rid' room' hroom'
        simp only [hrooms] at hroom'
        by_cases hq : rid' = user.roomId
        · rw [if_pos hq] at hroom'
          cases hroom'
        · rw [if_neg hq] at hroom'
          exact hnd rid' room' hroom'
    | false =>
      have hrooms := removeUser_rooms_of_nonempty st sid now user room0 hu hr0 hbe
      refine ⟨⟨?_, ?_⟩, ?_⟩
      · intro rid' room' hroom' sid' hmem'
        simp only [hrooms] at hroom'
        by_cases hq : rid' = user.roomId
        · rw [if_pos hq] at hroom'
          injection hroom' with hre
          subst hre
          have hmem2 : sid' ∈ room0.users.erase sid := hmem'
          have hne : sid' ≠ sid := by
            intro heq
            subst heq
            exact hndr.not_mem_erase hmem2
          have hmemold : sid' ∈ room0.users := (List.mem_erase_of_ne hne).1 hmem2
          obtain ⟨u2, hu2, hu2rid⟩ := hdir1 user.roomId room0 hr0 sid' hmemold
          refine ⟨u2, ?_, by rw [hu2rid, hq]⟩
          simp only [husers]
          rw [if_neg hne]
          exact hu2
        · rw [if_neg hq] at hroom'
          obtain ⟨u2, hu2, hu2rid⟩ := hdir1 rid' room' hroom' sid' hmem'
          have hne : sid' ≠ sid := by
            intro heq
            subst heq
            rw [hu] at hu2
            injection hu2 with hq2
            subst hq2
            exact hq hu2rid.symm
          refine ⟨u2, ?_, hu2rid⟩
          simp only [husers]
          rw [if_neg hne]
          exact hu2
      · intro sid' u' hu'
        simp only [husers] at hu'
        by_cases hq : sid' = sid
        · rw [if_pos hq] at hu'
          cases hu'
        · rw [if_neg hq] at hu'
          obtain ⟨roomx, hrx, hmx⟩ := hdir2 sid' u' hu'
          by_cases hq2 : u'.roomId = user.roomId
          · rw [hq2] at hrx ⊢
            rw [hr0] at hrx
            injection hrx with hre
            subst hre
            simp only [hrooms]
            refine ⟨{ room0 with users := room0.users.erase sid, lastActivity := now },
              by simp, ?_⟩
            exact (List.mem_erase_of_ne hq).2 hmx
          · simp only [hrooms]
            refine ⟨roomx, ?_, hmx⟩
            rw [if_neg hq2]
            exact hrx
      · intro rid' room' hroom'
        simp only [hrooms] at hroom'
        by_cases hq : rid' = user.roomId
        · rw [if_pos hq] at hroom'
          injection hroom' with hre
          subst hre
          exact hndr.erase sid
        · rw [if_neg hq] at hroom'
          exact hnd rid' room' hroom'

theorem opsFresh_append (a b : List Op) (st : RoomManager)
    (h : opsFresh st (a ++ b) = true) : opsFresh st a = true := by
  induction a generalizing st with
  | nil => rfl
  | cons op rest ih =>
    rw [List.cons_append] at h
    simp only [opsFresh, Bool.and_eq_true] at h ⊢
    exact ⟨h.1, ih (execOp st op) h.2⟩

theorem execOps_wf (ops : List Op) (st : RoomManager) (h : opsFresh st ops = true)
    (hinv : RegistryInv st) (hnd : RoomsNodup st) :
    RegistryInv (execOps st ops) ∧ RoomsNodup (execOps st ops) := by
  induction ops generalizing st with
  | nil => exact ⟨hinv, hnd⟩
  | cons op rest ih =>
    simp only [opsFresh, Bool.and_eq_true] at h
    have hstep : execOps st (op :: rest) = execOps (execOp st op) rest := rfl
    rw [hstep]
    cases op with
    | add sid un rid now =>
      have hfresh : st.users sid = none := Option.isNone_iff_eq_none.1 h.1
      obtain ⟨hi, hn⟩ := addUser_wf st sid un rid now hfresh ⟨hinv.1, hinv.2⟩ hnd
      exact ih (execOp st (Op.add sid un rid now)) h.2 hi hn
    | remove sid now =>
      obtain ⟨hi, hn⟩ := removeUser_wf st sid now ⟨hinv.1, hinv.2⟩ hnd
      exact ih (execOp st (Op.remove sid now)) h.2 hi hn

theorem initRM_inv : RegistryInv initRM := by
  constructor
  · intro rid room h
    simp [initRM] at h
  · intro sid u h
    simp [initRM] at h

theorem initRM_nodup : RoomsNodup initRM := by
  intro rid room h
  simp [initRM] at h

/-- C1 (amended): for every sequence of `addUser`/`removeUser` calls in which
no `addUser` re-registers a connection id that is registered at that moment,
the registry invariant (member sets and users-map entries mutually
consistent, with matching room ids) holds after each call, i.e. after every
prefix of the sequence. -/
theorem claim_C1 (ops pre suf : List Op) (hsplit : ops = pre ++ suf)
    (hfresh : opsFresh initRM ops = true) :
    RegistryInv (execOps initRM pre) := by
  subst hsplit
  exact (execOps_wf pre initRM (opsFresh_append pre suf initRM hfresh)
    initRM_inv initRM_nodup).1

/-- Witness for C1 on a concrete fresh-joins sequence. -/
theorem claim_C1_witness :
    c1WitnessOps = c1WitnessOps ++ []
  ∧ opsFresh initRM c1WitnessOps = true
  ∧ RegistryInv (execOps initRM c1WitnessOps) :=
  ⟨by simp, by decide, claim_C1 c1WitnessOps c1WitnessOps [] (by simp) (by decide)⟩

/-- Counterexample to C1 as stated: after the repeat join
`addUser("s","u1","r1"); addUser("s","u2","r2")` the socket id `"s"` is
still a member of room `"r1"` although its users-map entry names `"r2"`,
so the invariant fails for this call sequence. -/
theorem claim_C1_cex : ¬ RegistryInv (execOps initRM c1CexOps) := by
  intro h
  obtain ⟨u, hu, hurid⟩ := h.1 "r1"
    { roomId := "r1", users := ["s"], createdAt := 0, lastActivity := 0 }
    (by decide) "s" (by decide)
  have hval : (execOps initRM c1CexOps).users "s"
      = some { userId := "s", socketId := "s", username := "u2", roomId := "r2",
               color := "#4ECDC4", joinedAt := 1, cursor := (0, 0) } := by decide
  rw [hval] at hu
  injection hu with hue
  subst hue
  exact absurd hurid (by decide)

/-- C5: after any operation sequence, the next `addUser` (the
`(countAdds ops + 1)`-th since construction) is assigned
`palette[countAdds ops % 20]`, independently of intervening removals; with
20 prior adds the color equals the very first palette color again. -/
theorem claim_C5 (ops : List Op) (sid un rid : String) (now : Nat) :
    ((execOps initRM ops).addUser sid un rid now).1.color
      = defaultPalette.getD (countAdds ops % 20) ""
  ∧ (countAdds ops = 20 →
      ((execOps initRM ops).addUser sid un rid now).1.color = defaultPalette.getD 0 "") := by
  have hcolor : ((execOps initRM ops).addUser sid un rid now).1.color
      = (execOps initRM ops).colorPalette.getD
          ((execOps initRM ops).colorIndex % (execOps initRM ops).colorPalette.length) "" :=
    rfl
  have hpal := execOps_colorPalette ops initRM
  have hidx := execOps_colorIndex ops initRM
  have hpal0 : initRM.colorPalette = defaultPalette := rfl
  have hlen : defaultPalette.length = 20 := rfl
  have hidx0 : initRM.colorIndex = 0 := rfl
  constructor
  · rw [hcolor, hpal, hidx, hpal0, hlen, hidx0, Nat.zero_add]
  · intro h20
    rw [hcolor, hpal, hidx, hpal0, hlen, hidx0, Nat.zero_add, h20]

end CollabCanvas
